import Mathlib

/-!
# Splash fetcher: header normalisation, reply classification, retry and cache annotation

A shallow embedding of `splash/splash.go`.

* Go strings are modelled by Lean strings (sequences of Unicode code points), that is,
  the model covers the valid UTF-8 strings.
* A Go panic is an explicit `Crash` value in `Except Crash _`.
* The network, the garbage-collection endpoint, the clock and the libraries
  (`encoding/json`, `cacheobject`, `base64`) are inputs gathered in a `World`.
* `GetResponse` calls itself in the source; the model takes a recursion budget and returns
  `none` when the budget is exhausted.
-/

set_option linter.dupNamespace false

namespace Splash

/-! ## Values decoded from JSON and the canonical header map -/

/-- The two run-time panics the source can raise. -/
inductive Crash where
  /-- A failed single-value type assertion `x.(T)`. -/
  | typeAssertion
  /-- A field access through a nil pointer. -/
  | nilDereference
  deriving DecidableEq, Repr

/-- What `encoding/json` stores in an `interface{}`: nil, bool, float64 (only the integral ones
are represented), string, `[]interface{}` and `map[string]interface{}`. The keys of an `obj`
are pairwise distinct, as in a Go map. -/
inductive JVal where
  | null
  | bool (b : Bool)
  | num (n : Int)
  | str (s : String)
  | arr (xs : List JVal)
  | obj (kvs : List (String × JVal))

/-- Go's `http.Header`, a `map[string][]string`, as an association list with distinct keys.
The nil map and the empty map are both `[]`: they read alike. -/
abbrev Header := List (String × List String)

/-- Map read `header[k]`; `none` when the key is absent. -/
def Header.get : Header → String → Option (List String)
  | [], _ => none
  | (k', v) :: t, k => if k' = k then some v else Header.get t k

/-- Map write `header[k] = v`: replaces the binding of `k` when there is one. -/
def Header.set : Header → String → List String → Header
  | [], k, v => [(k, v)]
  | (k', v') :: t, k, v => if k' = k then (k', v) :: t else (k', v') :: Header.set t k v

/-- Map read `m[k]` on a `map[string]interface{}`: the nil interface when the key is absent. -/
def mapIndex : List (String × JVal) → String → JVal
  | [], _ => JVal.null
  | (k', v) :: t, k => if k' = k then v else mapIndex t k

/-- The loop of the `[]interface{}` case of `castHeaders` (lines 348-356), started from the
map built so far. -/
def castHeadersList : List JVal → Header → Except Crash Header
  | [], header => .ok header
  | h :: rest, header =>
    match h with
    | .obj m =>
      -- v, ok := h.(map[string]interface{})["value"].(string)
      match mapIndex m "value" with
      | .str v =>
        -- str = append([]string{}, v); header[h.(...)["name"].(string)] = str
        match mapIndex m "name" with
        | .str name => castHeadersList rest (header.set name [v])
        | _ => .error .typeAssertion
      | _ => castHeadersList rest header
    | _ => .error .typeAssertion

/-- The inner loop of the map case (lines 361-363): `str = append(str, vv.(string))`. -/
def castStrings : List JVal → List String → Except Crash (List String)
  | [], str => .ok str
  | .str s :: rest, str => castStrings rest (str ++ [s])
  | _ :: _, _ => .error .typeAssertion

/-- The loop of the `map[string]interface{}` case of `castHeaders` (lines 359-365). Every entry
is visited unless a panic stops the loop, so the order of the visit does not matter for
distinct keys. -/
def castHeadersMap : List (String × JVal) → Header → Except Crash Header
  | [], header => .ok header
  | (k, v) :: rest, header =>
    match v with
    | .arr vs =>
      match castStrings vs [] with
      | .ok str => castHeadersMap rest (header.set k str)
      | .error c => .error c
    | _ => .error .typeAssertion

/-- Source `castHeaders` (lines 344-370). The default case returns the nil header. -/
def castHeaders : JVal → Except Crash Header
  | .arr hs => castHeadersList hs []
  | .obj m => castHeadersMap m []
  | _ => .ok []

/-! ### The two wire shapes of one logical header set (used to state the round trip) -/

/-- List form: one `{name, value}` object per pair, in order. -/
def listForm (entries : List (String × String)) : JVal :=
  .arr (entries.map fun e => .obj [("name", .str e.1), ("value", .str e.2)])

/-- The values carried by `name`, in order of appearance. -/
def valuesOf (name : String) (entries : List (String × String)) : List String :=
  (entries.filter fun e => e.1 = name).map fun e => e.2

/-- Mapping form: each name, once, mapped to the list of its values in order of appearance. -/
def mappingForm (entries : List (String × String)) : JVal :=
  .obj ((entries.map fun e => e.1).dedup.map fun n =>
    (n, .arr ((valuesOf n entries).map JVal.str)))

/-! ## Request and `GetURL` -/

/-- Go's `unicode.IsSpace`. -/
def isSpace (c : Char) : Bool :=
  let n := c.toNat
  (9 ≤ n ∧ n ≤ 13) ∨ n = 32 ∨ n = 0x85 ∨ n = 0xA0 ∨ n = 0x1680 ∨ (0x2000 ≤ n ∧ n ≤ 0x200A) ∨
    n = 0x2028 ∨ n = 0x2029 ∨ n = 0x202F ∨ n = 0x205F ∨ n = 0x3000

/-- Drops the longest run of characters satisfying `p` at the end of the list. -/
def dropRightWhile (p : Char → Bool) (s : List Char) : List Char :=
  (s.reverse.dropWhile p).reverse

/-- Go's `strings.TrimRight(s, cutset)`. -/
def TrimRight (s cutset : String) : String :=
  ⟨dropRightWhile (fun c => cutset.data.contains c) s.data⟩

/-- Go's `strings.TrimSpace(s)`. -/
def TrimSpace (s : String) : String :=
  ⟨dropRightWhile isSpace (s.data.dropWhile isSpace)⟩

/-- Modelled from the spec: the declaration of `Request` is not in `splash.go`; the fields are
those of FetchRequest in the data model. -/
structure Request where
  URL : String
  Cookies : String
  Params : List (String × String)

/-- Source `Request.GetURL` (lines 314-318). -/
def Request.GetURL (r : Request) : String :=
  TrimSpace (TrimRight r.URL "/")

/-! ## Replies of the proxy -/

/-- Go's `time.Time` as a number of nanoseconds counted from the zero instant. -/
abbrev Time := Int

/-- Go's `time.Hour`, in nanoseconds. -/
def Hour : Int := 3600 * 1000000000

/-- Go's `Time.IsZero`. -/
def IsZero (t : Time) : Bool := decide (t = 0)

/-- A `Headers interface{}` field: the decoded JSON value until `castHeaders` has replaced it
by an `http.Header`. -/
inductive Headers where
  | raw (v : JVal)
  | cast (h : Header)

/-- Modelled from the spec: the declaration of the inner request record is not in `splash.go`;
the fields are the ones the source reads (InnerRequestInfo in the data model). -/
structure SRequest where
  Method : String
  URL : String
  Headers : Headers

/-- Modelled from the spec: the declaration of the inner response record is not in
`splash.go`; the fields are the ones the source reads (InnerResponseInfo in the data model).
`ContentText` is `Content.Text`. -/
structure SResponse where
  Status : Int
  StatusText : String
  Ok : Bool
  Headers : Headers
  ContentText : String

/-- Modelled from the spec: the declaration of `Response` is not in `splash.go`; the fields are
those of FetchResult in the data model. `Request` and `Response` are pointers in the source
(both are compared with nil), hence options. -/
structure Response where
  HTML : String
  Error : String
  Request : Option SRequest
  Response : Option SResponse
  Cacheable : Bool
  Expires : Time

/-- The `request` member of the proxy's JSON object as `encoding/json` stores it, its headers
an untyped value. -/
structure RequestMember where
  Method : String
  URL : String
  Headers : JVal

/-- The `response` member of the proxy's JSON object as `encoding/json` stores it, its headers
an untyped value. -/
structure ResponseMember where
  Status : Int
  StatusText : String
  Ok : Bool
  Headers : JVal
  ContentText : String

/-- Modelled from the spec: the JSON tags of `Response` are declared outside `splash.go`. The
members `encoding/json` stores are `html`, `error`, `request` and `response`. Following the
data model, `Cacheable` and `Expires` are not among them: they keep their zero values until
the cache evaluator runs. -/
structure Fields where
  HTML : String
  Error : String
  Request : Option RequestMember
  Response : Option ResponseMember

/-- What `json.Unmarshal(data, &aux)` does with a body (library behaviour, an input here). -/
inductive Decode where
  /-- The body is not well-formed JSON: an error is returned and the target is untouched. -/
  | syntaxError
  /-- Well-formed JSON with a member that does not fit its field: the other members are
  stored and an error is returned. -/
  | typeError (f : Fields)
  /-- Well-formed JSON, no error. -/
  | ok (f : Fields)

/-- The zero value of `Response` (`var sResponse Response`). -/
def Response.zero : Splash.Response :=
  { HTML := "", Error := "", Request := none, Response := none, Cacheable := false, Expires := 0 }

/-- The decoded members stored into a zero `Response`, headers still untyped. -/
def Fields.store (f : Fields) : Splash.Response :=
  { HTML := f.HTML, Error := f.Error,
    Request := f.Request.map fun q =>
      { Method := q.Method, URL := q.URL, Headers := .raw q.Headers },
    Response := f.Response.map fun p =>
      { Status := p.Status, StatusText := p.StatusText, Ok := p.Ok, Headers := .raw p.Headers,
        ContentText := p.ContentText },
    Cacheable := false, Expires := 0 }

/-- The interface value `castHeaders` receives from a `Headers` field. An `http.Header` already
stored there matches neither case of the type switch. -/
def castField : Headers → Except Crash Headers
  | .raw v => (castHeaders v).map Headers.cast
  | .cast _ => .ok (.cast [])

/-- Line 334-336: `if r.Request != nil { r.Request.Headers = castHeaders(r.Request.Headers) }`. -/
def castRequestHeaders (r : Response) : Except Crash Response :=
  match r.Request with
  | none => .ok r
  | some q =>
    match castField q.Headers with
    | .ok h => .ok { r with Request := some { q with Headers := h } }
    | .error c => .error c

/-- Line 337-339: `if r.Response != nil { r.Response.Headers = castHeaders(r.Response.Headers) }`. -/
def castResponseHeaders (r : Response) : Except Crash Response :=
  match r.Response with
  | none => .ok r
  | some p =>
    match castField p.Headers with
    | .ok h => .ok { r with Response := some { p with Headers := h } }
    | .error c => .error c

/-- Source `Response.UnmarshalJSON` (lines 322-341) run by `json.Unmarshal(res, &sResponse)` on
a zero `Response`. Returns the record and whether an error was returned. When the decoding of
the members fails, the headers are left as decoded. -/
def Response.UnmarshalJSON (data : Decode) : Except Crash (Splash.Response × Bool) :=
  match data with
  | .syntaxError => .ok (Response.zero, true)
  | .typeError f => .ok (f.store, true)
  | .ok f =>
    match castRequestHeaders f.store with
    | .error c => .error c
    | .ok r =>
      match castResponseHeaders r with
      | .error c => .error c
      | .ok r => .ok (r, false)

/-! ## The environment -/

/-- One call of `client.Do` followed by `ioutil.ReadAll`. -/
inductive Attempt where
  /-- The transport or the read of the body failed. -/
  | failed (err : String)
  /-- A reply: transport status, body text, and what `encoding/json` makes of the body. -/
  | reply (status : Int) (body : String) (decode : Decode)

/-- One call of `gc` (lines 376-396): an error (transport or decoding), or the status token. -/
inductive GcResult where
  | failed (err : String)
  | status (s : String)

/-- The outputs of `cacheobject.CachableObject` and `cacheobject.ExpirationObject` that the
source reads. -/
structure ObjectResults where
  OutReasons : List Nat
  OutExpirationTime : Time

/-- Everything outside `splash.go`. `fetch n` is the n-th proxy call, `gc n` the n-th reset
call, `clock 0` the reading stored in `NowUTC` and `clock 1` the reading taken when `Expires`
is assigned. `cacheRules` stands for the header parsing and the two `cacheobject` calls, given
the response headers, request headers, response status, request method and `NowUTC`. -/
structure World where
  fetch : Nat → Attempt
  gc : Nat → GcResult
  cacheRules : Header → Header → Int → String → Time → ObjectResults
  clock : Nat → Time
  isRobotsTxt : String → Bool
  base64Decode : String → Option String

/-- Number of proxy calls and of reset calls made so far. -/
structure Calls where
  fetches : Nat
  resets : Nat
  deriving DecidableEq, Repr

/-- The Go `error` values the source returns. -/
inductive Err where
  | transport (msg : String)
  | GatewayTimeout
  /-- An error made by `fmt.Errorf` or `errors.New`, with its text (for line 143 the body
  used as format). -/
  | text (msg : String)
  | NotFound (url : String)
  | Forbidden (url : String)
  | InvalidHost (url : String)
  | Error (code : String)
  | base64
  deriving DecidableEq, Repr

/-- A Go return pair `(value, error)`, or a panic. -/
abbrev Ret (α : Type) := Except Crash (Option α × Option Err)

/-! ## Cache annotation -/

/-- Lines 228-262 of `Response.setCacheInfo`: both header fields are asserted to hold an
`http.Header` and the cacheability rules are evaluated. -/
def Response.cacheResults (w : World) (r : Splash.Response) : Except Crash ObjectResults :=
  -- respHeader := r.Response.Headers.(http.Header)
  match r.Response with
  | none => .error .nilDereference
  | some p =>
    match p.Headers with
    | .raw _ => .error .typeAssertion
    | .cast respHeader =>
      -- reqHeader := r.Request.Headers.(http.Header)
      match r.Request with
      | none => .error .nilDereference
      | some q =>
        match q.Headers with
        | .raw _ => .error .typeAssertion
        | .cast reqHeader =>
          .ok (w.cacheRules respHeader reqHeader p.Status q.Method (w.clock 0))

/-- Source `Response.setCacheInfo` (lines 227-296). -/
def Response.setCacheInfo (w : World) (r : Splash.Response) : Except Crash Splash.Response :=
  match r.cacheResults w with
  | .error crash => .error crash
  | .ok rv =>
    if rv.OutReasons.length = 0 then
      if IsZero rv.OutExpirationTime then
        .ok { r with Cacheable := true, Expires := w.clock 1 + Hour * 24 }
      else
        .ok { r with Cacheable := true, Expires := rv.OutExpirationTime }
    else
      .ok { r with Expires := w.clock 1 }

/-! ## Classification and retry -/

/-- The condition of line 171. -/
def transientEmpty (r : Response) : Bool :=
  r.Response.isNone || (r.Request.isNone && r.HTML != "")

/-- The message built at lines 185-193. -/
def statusMessage (p : SResponse) : String :=
  if p.Status = 0 then p.StatusText else toString p.Status ++ ". " ++ p.StatusText

/-- Source `GetResponse` (lines 120-201). The first argument bounds the depth of the
self-call of line 176; `none` means the bound was reached. -/
def GetResponse (w : World) (req : Request) : Nat → Calls → Option (Calls × Ret Response)
  | 0, _ => none
  | fuel + 1, c =>
    let c1 : Calls := { c with fetches := c.fetches + 1 }
    match w.fetch c.fetches with
    | .failed err => some (c1, .ok (none, some (.transport err)))
    | .reply statusCode res decode =>
      if statusCode ≠ 200 then
        if statusCode = 504 then some (c1, .ok (none, some .GatewayTimeout))
        else some (c1, .ok (none, some (.text res)))
      else
        -- the error of json.Unmarshal is logged, not returned
        match Response.UnmarshalJSON decode with
        | .error crash => some (c1, .error crash)
        | .ok (sResponse, _) =>
          if sResponse.Error ≠ "" then
            if sResponse.Error = "http404" then some (c1, .ok (none, some (.NotFound req.URL)))
            else if sResponse.Error = "http403" then
              some (c1, .ok (none, some (.Forbidden req.URL)))
            else if sResponse.Error = "network3" then
              some (c1, .ok (none, some (.InvalidHost req.URL)))
            else some (c1, .ok (none, some (.Error sResponse.Error)))
          else if transientEmpty sResponse then
            let c2 : Calls := { c1 with resets := c1.resets + 1 }
            match w.gc c.resets with
            | .status s =>
              if s = "ok" then
                match GetResponse w req fuel c2 with
                | none => none
                | some (c3, .error crash) => some (c3, .error crash)
                | some (c3, .ok (_, some err)) => some (c3, .ok (none, some err))
                | some (c3, .ok (response, none)) => some (c3, .ok (response, none))
              else some (c2, .ok (none, none))
            | .failed _ => some (c2, .ok (none, none))
          else
            match sResponse.Response with
            | none => some (c1, .error .nilDereference)
            | some p =>
              if !p.Ok then some (c1, .ok (none, some (.text (statusMessage p))))
              else
                match sResponse.setCacheInfo w with
                | .error crash => some (c1, .error crash)
                | .ok r => some (c1, .ok (some r, none))

/-- Source `Response.GetContent` (lines 203-223), on a possibly nil receiver. -/
def Response.GetContent (w : World) : Option Splash.Response → Ret String
  | none => .error .nilDereference
  | some r =>
    if r.Error ≠ "" then .ok (none, some (.text r.Error))
    else
      match r.Request with
      | none => .error .nilDereference
      | some q =>
        if w.isRobotsTxt q.URL then
          match r.Response with
          | none => .error .nilDereference
          | some p =>
            match w.base64Decode p.ContentText with
            | none => .ok (none, some .base64)
            | some decoded => .ok (some decoded, none)
        else .ok (some r.HTML, none)

/-- Source `Fetch` (lines 299-311). -/
def Fetch (w : World) (req : Request) (fuel : Nat) (c : Calls) : Option (Calls × Ret String) :=
  match GetResponse w req fuel c with
  | none => none
  | some (c1, .error crash) => some (c1, .error crash)
  | some (c1, .ok (_, some err)) => some (c1, .ok (none, some err))
  | some (c1, .ok (response, none)) =>
    match Response.GetContent w response with
    | .error crash => some (c1, .error crash)
    | .ok (content, none) => some (c1, .ok (content, none))
    | .ok (_, some err) => some (c1, .ok (none, some err))

/-- The reply is one that `GetResponse` sends to the reset-and-retry branch of line 171:
status 200, no proxy error code, and the transient-empty signature. -/
def classifiedTransient : Attempt → Bool
  | .failed _ => false
  | .reply statusCode _ decode =>
    decide (statusCode = 200) &&
      match Response.UnmarshalJSON decode with
      | .ok (r, _) => decide (r.Error = "") && transientEmpty r
      | .error _ => false

/-! ## Concrete inputs -/

/-- A request for `https://example.com`. -/
def exampleRequest : Request :=
  { URL := "https://example.com", Cookies := "", Params := [] }

/-- A complete reply: `{"html":"<p>hi</p>","request":{...},"response":{"ok":true,...}}`. -/
def completeFields : Fields :=
  { HTML := "<p>hi</p>", Error := "",
    Request := some { Method := "GET", URL := "https://example.com", Headers := .obj [] },
    Response := some { Status := 200, StatusText := "OK", Ok := true,
                       Headers := .obj [("Cache-Control", .arr [.str "no-store"])],
                       ContentText := "" } }

/-- The reply `{}`: neither `request` nor `response`. -/
def emptyFields : Fields :=
  { HTML := "", Error := "", Request := none, Response := none }

/-- The reply `{"response":{"status":200,"statusText":"OK","ok":true,"headers":{}}}`: no
`request` member and no `html`. -/
def noRequestFields : Fields :=
  { HTML := "", Error := "", Request := none,
    Response := some { Status := 200, StatusText := "OK", Ok := true, Headers := .obj [],
                       ContentText := "" } }

/-- A world that answers the proxy calls with `replies` in turn, then with `last` for ever,
and every reset call with `reset`. Its cache rules refuse exactly the responses whose
`Cache-Control` is `no-store` and compute no expiration. -/
def scripted (replies : List Attempt) (last : Attempt) (reset : GcResult) : World :=
  { fetch := fun n => replies.getD n last
    gc := fun _ => reset
    cacheRules := fun respHeader _ _ _ _ =>
      if respHeader.get "Cache-Control" = some ["no-store"] then ⟨[1], 0⟩ else ⟨[], 0⟩
    clock := fun n => 1000 + n
    isRobotsTxt := fun _ => false
    base64Decode := fun _ => none }

/-- The record `completeFields` decodes to. -/
def completeResponse : Response :=
  { HTML := "<p>hi</p>", Error := "",
    Request := some { Method := "GET", URL := "https://example.com", Headers := .cast [] },
    Response := some { Status := 200, StatusText := "OK", Ok := true,
                       Headers := .cast [("Cache-Control", ["no-store"])], ContentText := "" },
    Cacheable := false, Expires := 0 }

/-- The record `completeFields` decodes to, without the `Cache-Control` header. -/
def plainResponse : Response :=
  { completeResponse with
    Response := some { Status := 200, StatusText := "OK", Ok := true, Headers := .cast [],
                       ContentText := "" } }

/-- A reply whose body is the empty JSON object: transient-empty. -/
def emptyReply : Attempt := .reply 200 "\x7b\x7d" (.ok emptyFields)

/-- A complete reply. -/
def completeReply : Attempt := .reply 200 "" (.ok completeFields)

/-- A 504 reply whose body is a JSON object with the error code `http404`. -/
def timeoutReply : Attempt :=
  .reply 504 "\x7b\"error\":\"http404\"\x7d" (.ok { emptyFields with Error := "http404" })

/-- Every proxy call is answered by a 504. -/
def timeoutWorld : World := scripted [] timeoutReply (.status "ok")

/-- Two transient-empty replies, then complete ones; every reset reports "ok". -/
def chainWorld : World := scripted [emptyReply, emptyReply] completeReply (.status "ok")

/-- One transient-empty reply, then 504s; every reset reports "ok". -/
def retryWorld : World := scripted [emptyReply] (.reply 504 "" .syntaxError) (.status "ok")

/-- A status-200 reply with a body that is not JSON, then complete replies. -/
def malformedWorld (reset : GcResult) : World :=
  scripted [.reply 200 "<html>" .syntaxError] completeReply reset

/-- Every reply is complete. -/
def completeWorld : World := scripted [] completeReply (.status "ok")

/-- Every reply is transient-empty. -/
def emptyWorld (reset : GcResult) : World := scripted [] emptyReply reset

/-- Every reply has a `response` member and neither `request` nor `html`. -/
def noRequestWorld : World := scripted [] (.reply 200 "" (.ok noRequestFields)) (.status "ok")

/-! ## Lemmas on `GetResponse` -/

theorem GetResponse_error_nil (w : World) (req : Request) (fuel : Nat) (c c' : Calls)
    (resp : Option Response) (e : Err)
    (h : GetResponse w req fuel c = some (c', .ok (resp, some e))) : resp = none := by
  cases fuel with
  | zero => simp [GetResponse] at h
  | succ n =>
    simp only [GetResponse] at h
    repeat' split at h
    all_goals first
      | (simp at h; done)
      | (simp at h; obtain ⟨-, h2, -⟩ := h; exact h2.symm)

theorem classifiedTransient_inv (a : Attempt) (h : classifiedTransient a = true) :
    ∃ body decode r b, a = .reply 200 body decode ∧
      Response.UnmarshalJSON decode = .ok (r, b) ∧ r.Error = "" ∧ transientEmpty r = true := by
  cases a with
  | failed err => simp [classifiedTransient] at h
  | reply s body decode =>
    simp only [classifiedTransient, Bool.and_eq_true, decide_eq_true_eq] at h
    obtain ⟨hs, h2⟩ := h
    subst hs
    cases hu : Response.UnmarshalJSON decode with
    | error c => simp [hu] at h2
    | ok p =>
      obtain ⟨r, b⟩ := p
      simp [hu] at h2
      exact ⟨body, decode, r, b, rfl, hu, h2.1, h2.2⟩

/-- After a transient-empty reply and a reset that reports "ok", `GetResponse` returns what
its self-call returns. -/
theorem GetResponse_retry_step (w : World) (req : Request) (fuel : Nat) (c : Calls)
    (h1 : classifiedTransient (w.fetch c.fetches) = true)
    (h2 : w.gc c.resets = .status "ok") :
    GetResponse w req (fuel + 1) c = GetResponse w req fuel ⟨c.fetches + 1, c.resets + 1⟩ := by
  obtain ⟨body, decode, r, b, hf, hu, he, ht⟩ := classifiedTransient_inv _ h1
  simp only [GetResponse, hf, hu, he, ht, h2]
  simp
  cases hr : GetResponse w req fuel ⟨c.fetches + 1, c.resets + 1⟩ with
  | none => rfl
  | some p =>
    obtain ⟨c3, ret⟩ := p
    cases ret with
    | error cr => rfl
    | ok q =>
      obtain ⟨resp, err⟩ := q
      cases err with
      | none => rfl
      | some e =>
        have := GetResponse_error_nil w req fuel _ c3 resp e hr
        subst this
        rfl

/-- A reply that is not sent to the retry branch ends `GetResponse` after this one proxy call,
without any reset call, whatever the recursion budget. -/
theorem GetResponse_single (w : World) (req : Request) (c : Calls)
    (h : classifiedTransient (w.fetch c.fetches) = false) :
    ∃ r, ∀ fuel, GetResponse w req (fuel + 1) c = some (⟨c.fetches + 1, c.resets⟩, r) := by
  cases hf : w.fetch c.fetches with
  | failed err => exact ⟨.ok (none, some (.transport err)), fun fuel => by simp [GetResponse, hf]⟩
  | reply s body decode =>
    rw [hf] at h
    by_cases hs : s = 200
    · subst hs
      cases hu : Response.UnmarshalJSON decode with
      | error cr => exact ⟨.error cr, fun fuel => by simp [GetResponse, hf, hu]⟩
      | ok p =>
        obtain ⟨r, b⟩ := p
        simp [classifiedTransient, hu] at h
        by_cases he : r.Error = ""
        · have ht := h he
          cases hp : r.Response with
          | none =>
            exact ⟨.error .nilDereference, fun fuel => by simp [GetResponse, hf, hu, he, ht, hp]⟩
          | some p =>
            by_cases hok : p.Ok = true
            · cases hc : r.setCacheInfo w with
              | error cr =>
                exact ⟨.error cr, fun fuel => by simp [GetResponse, hf, hu, he, ht, hp, hok, hc]⟩
              | ok r2 =>
                exact ⟨.ok (some r2, none),
                  fun fuel => by simp [GetResponse, hf, hu, he, ht, hp, hok, hc]⟩
            · exact ⟨.ok (none, some (.text (statusMessage p))),
                fun fuel => by simp [GetResponse, hf, hu, he, ht, hp, hok]⟩
        · by_cases h1 : r.Error = "http404"
          · exact ⟨.ok (none, some (.NotFound req.URL)),
              fun fuel => by simp [GetResponse, hf, hu, he, h1]⟩
          · by_cases h2 : r.Error = "http403"
            · exact ⟨.ok (none, some (.Forbidden req.URL)),
                fun fuel => by simp [GetResponse, hf, hu, he, h1, h2]⟩
            · by_cases h3 : r.Error = "network3"
              · exact ⟨.ok (none, some (.InvalidHost req.URL)),
                  fun fuel => by simp [GetResponse, hf, hu, he, h1, h2, h3]⟩
              · exact ⟨.ok (none, some (.Error r.Error)),
                  fun fuel => by simp [GetResponse, hf, hu, he, h1, h2, h3]⟩
    · by_cases h5 : s = 504
      · exact ⟨.ok (none, some .GatewayTimeout), fun fuel => by simp [GetResponse, hf, hs, h5]⟩
      · exact ⟨.ok (none, some (.text body)), fun fuel => by simp [GetResponse, hf, hs, h5]⟩

theorem castRequestHeaders_cache_fields (r r' : Response)
    (h : castRequestHeaders r = .ok r') :
    r'.Cacheable = r.Cacheable ∧ r'.Expires = r.Expires := by
  unfold castRequestHeaders at h
  split at h
  · simp only [Except.ok.injEq] at h; subst h; exact ⟨rfl, rfl⟩
  · split at h
    · simp only [Except.ok.injEq] at h; subst h; exact ⟨rfl, rfl⟩
    · simp at h

theorem castResponseHeaders_cache_fields (r r' : Response)
    (h : castResponseHeaders r = .ok r') :
    r'.Cacheable = r.Cacheable ∧ r'.Expires = r.Expires := by
  unfold castResponseHeaders at h
  split at h
  · simp only [Except.ok.injEq] at h; subst h; exact ⟨rfl, rfl⟩
  · split at h
    · simp only [Except.ok.injEq] at h; subst h; exact ⟨rfl, rfl⟩
    · simp at h

/-- A freshly decoded record carries the zero values of `Cacheable` and `Expires`. -/
theorem UnmarshalJSON_zero_cache_fields (decode : Decode) (r : Response) (b : Bool)
    (h : Response.UnmarshalJSON decode = .ok (r, b)) : r.Cacheable = false ∧ r.Expires = 0 := by
  cases decode with
  | syntaxError =>
    simp only [Response.UnmarshalJSON, Except.ok.injEq, Prod.mk.injEq] at h
    rw [← h.1]; exact ⟨rfl, rfl⟩
  | typeError f =>
    simp only [Response.UnmarshalJSON, Except.ok.injEq, Prod.mk.injEq] at h
    rw [← h.1]; exact ⟨rfl, rfl⟩
  | ok f =>
    simp only [Response.UnmarshalJSON] at h
    cases h1 : castRequestHeaders f.store with
    | error c => simp [h1] at h
    | ok r1 =>
      cases h2 : castResponseHeaders r1 with
      | error c => simp [h1, h2] at h
      | ok r2 =>
        simp only [h1, h2, Except.ok.injEq, Prod.mk.injEq] at h
        obtain ⟨hr, -⟩ := h
        subst hr
        obtain ⟨a1, a2⟩ := castRequestHeaders_cache_fields _ _ h1
        obtain ⟨b1, b2⟩ := castResponseHeaders_cache_fields _ _ h2
        exact ⟨by rw [b1, a1]; rfl, by rw [b2, a2]; rfl⟩

/-- After a transient-empty reply and a reset that fails or reports another status,
`GetResponse` ends with nil and no error after one proxy call and one reset call. -/
theorem GetResponse_reset_failed (w : World) (req : Request) (fuel : Nat) (c : Calls)
    (h1 : classifiedTransient (w.fetch c.fetches) = true)
    (h2 : w.gc c.resets ≠ .status "ok") :
    GetResponse w req (fuel + 1) c = some (⟨c.fetches + 1, c.resets + 1⟩, .ok (none, none)) := by
  obtain ⟨body, decode, r, b, hf, hu, he, ht⟩ := classifiedTransient_inv _ h1
  cases hg : w.gc c.resets with
  | failed e => simp [GetResponse, hf, hu, he, ht, hg]
  | status t =>
    have hne : t ≠ "ok" := by
      intro h; apply h2; rw [hg, h]
    simp [GetResponse, hf, hu, he, ht, hg, hne]

/-- A result obtained within some recursion budget is obtained within every larger one. -/
theorem GetResponse_fuel_mono (w : World) (req : Request) (fuel : Nat) :
    ∀ (c : Calls) (x : Calls × Ret Response), GetResponse w req fuel c = some x →
      GetResponse w req (fuel + 1) c = some x := by
  induction fuel with
  | zero => intro c x h; simp [GetResponse] at h
  | succ n ih =>
    intro c x h
    cases ht : classifiedTransient (w.fetch c.fetches) with
    | false =>
      obtain ⟨r, hr⟩ := GetResponse_single w req c ht
      rw [hr n] at h
      rw [hr (n + 1)]
      exact h
    | true =>
      by_cases hg : w.gc c.resets = .status "ok"
      · rw [GetResponse_retry_step w req n c ht hg] at h
        rw [GetResponse_retry_step w req (n + 1) c ht hg]
        exact ih _ x h
      · rw [GetResponse_reset_failed w req n c ht hg] at h
        rw [GetResponse_reset_failed w req (n + 1) c ht hg]
        exact h

/-- With a nil `Request`, `setCacheInfo` panics. -/
theorem setCacheInfo_nil_request (w : World) (r : Response) (h : r.Request = none) :
    ∃ crash, r.setCacheInfo w = .error crash := by
  unfold Response.setCacheInfo Response.cacheResults
  cases hp : r.Response with
  | none => exact ⟨_, rfl⟩
  | some p =>
    cases hh : p.Headers with
    | raw v => simp [hh]
    | cast hd => simp [hh, h]

/-- After a transient-empty reply and a reset that does not report "ok", `Fetch` panics. -/
theorem Fetch_reset_failed (w : World) (req : Request) (fuel : Nat) (c : Calls)
    (h1 : classifiedTransient (w.fetch c.fetches) = true)
    (h2 : w.gc c.resets ≠ .status "ok") :
    Fetch w req (fuel + 1) c = some (⟨c.fetches + 1, c.resets + 1⟩, .error .nilDereference) := by
  simp [Fetch, GetResponse_reset_failed w req fuel c h1 h2, Response.GetContent]

/-! ## Lemmas on `castHeaders` -/

theorem Header.get_set (h : Header) (k k' : String) (v : List String) :
    (h.set k v).get k' = if k = k' then some v else h.get k' := by
  induction h with
  | nil => simp [Header.set, Header.get]
  | cons a t ih =>
    obtain ⟨ka, va⟩ := a
    by_cases h1 : ka = k
    · subst h1
      by_cases h2 : ka = k' <;> simp [Header.set, Header.get, h2]
    · by_cases h2 : ka = k'
      · subst h2
        have h3 : ¬ k = ka := fun e => h1 e.symm
        simp [Header.set, Header.get, h1, h3]
      · simp [Header.set, Header.get, h1, h2, ih]

/-- The list loop on a list form: every entry overwrites the binding of its name. -/
theorem castHeadersList_listForm (entries : List (String × String)) :
    ∀ header : Header,
      castHeadersList (entries.map fun e => .obj [("name", .str e.1), ("value", .str e.2)]) header
        = .ok (entries.foldl (fun h e => h.set e.1 [e.2]) header) := by
  induction entries with
  | nil => intro header; rfl
  | cons e t ih =>
    intro header
    have hv : mapIndex [("name", JVal.str e.1), ("value", JVal.str e.2)] "value" = .str e.2 := by
      simp [mapIndex]
    have hn : mapIndex [("name", JVal.str e.1), ("value", JVal.str e.2)] "name" = .str e.1 := by
      simp [mapIndex]
    simp only [List.map_cons, castHeadersList, hv, hn, List.foldl_cons]
    exact ih _

theorem foldl_set_get (entries : List (String × String)) (k : String) :
    ∀ header : Header,
      (entries.foldl (fun h e => h.set e.1 [e.2]) header).get k
        = match (valuesOf k entries).getLast? with
          | some v => some [v]
          | none => header.get k := by
  induction entries with
  | nil => intro header; simp [valuesOf]
  | cons e t ih =>
    intro header
    rw [List.foldl_cons, ih]
    by_cases he : e.1 = k
    · have : valuesOf k (e :: t) = e.2 :: valuesOf k t := by simp [valuesOf, he]
      rw [this]
      cases hl : (valuesOf k t) with
      | nil => simp [Header.get_set, he]
      | cons a l =>
        obtain ⟨v, hv⟩ : ∃ v, (a :: l).getLast? = some v :=
          ⟨_, List.getLast?_eq_getLast _ (List.cons_ne_nil a l)⟩
        simp [List.getLast?_cons_cons, hv]
    · have : valuesOf k (e :: t) = valuesOf k t := by simp [valuesOf, he]
      rw [this]
      cases hl : (valuesOf k t).getLast? with
      | none => simp [Header.get_set, he]
      | some v => rfl

/-- On every list form `castHeaders` returns, and a name is bound to the one-element list of
its last value only. -/
theorem castHeaders_listForm (entries : List (String × String)) :
    ∃ h, castHeaders (listForm entries) = .ok h ∧
      ∀ k, h.get k = (valuesOf k entries).getLast?.map fun v => [v] := by
  refine ⟨_, castHeadersList_listForm entries [], fun k => ?_⟩
  rw [foldl_set_get]
  cases (valuesOf k entries).getLast? <;> simp [Header.get]

theorem castStrings_strs (vs : List String) :
    ∀ acc : List String, castStrings (vs.map JVal.str) acc = .ok (acc ++ vs) := by
  induction vs with
  | nil => intro acc; simp [castStrings]
  | cons v t ih => intro acc; simp [castStrings, ih]

/-- The map loop on a mapping whose values are lists of strings: every key is bound to its
list. -/
theorem castHeadersMap_strs (f : String → List String) (names : List String) :
    ∀ header : Header,
      castHeadersMap (names.map fun n => (n, .arr ((f n).map JVal.str))) header
        = .ok (names.foldl (fun h n => h.set n (f n)) header) := by
  induction names with
  | nil => intro header; rfl
  | cons n t ih =>
    intro header
    simp only [List.map_cons, castHeadersMap, castStrings_strs, List.nil_append, List.foldl_cons]
    exact ih _

theorem foldl_set_names_get (f : String → List String) (names : List String) (k : String) :
    ∀ header : Header,
      (names.foldl (fun h n => h.set n (f n)) header).get k
        = if k ∈ names then some (f k) else header.get k := by
  induction names with
  | nil => intro header; simp
  | cons n t ih =>
    intro header
    rw [List.foldl_cons, ih, Header.get_set]
    by_cases h1 : k ∈ t
    · simp [h1]
    · by_cases h2 : n = k
      · subst h2; simp [h1]
      · have h3 : ¬ k = n := fun e => h2 e.symm
        simp [h1, h2, h3]

theorem valuesOf_eq_nil_iff (k : String) (entries : List (String × String)) :
    valuesOf k entries = [] ↔ k ∉ entries.map fun e => e.1 := by
  induction entries with
  | nil => simp [valuesOf]
  | cons e t ih =>
    by_cases he : e.1 = k
    · simp [valuesOf, he]
    · have h3 : ¬ k = e.1 := fun h => he h.symm
      have : valuesOf k (e :: t) = valuesOf k t := by simp [valuesOf, he]
      rw [this, ih]
      simp [h3]

/-- On every mapping form `castHeaders` returns, and a name is bound to all of its values in
order. -/
theorem castHeaders_mappingForm (entries : List (String × String)) :
    ∃ h, castHeaders (mappingForm entries) = .ok h ∧
      ∀ k, h.get k = if valuesOf k entries = [] then none else some (valuesOf k entries) := by
  refine ⟨_, castHeadersMap_strs (fun n => valuesOf n entries) _ [], fun k => ?_⟩
  rw [foldl_set_names_get]
  by_cases hk : k ∈ entries.map fun e => e.1
  · have hd : k ∈ (entries.map fun e => e.1).dedup := List.mem_dedup.mpr hk
    have : ¬ valuesOf k entries = [] := fun h => (valuesOf_eq_nil_iff k entries).mp h hk
    rw [if_pos hd, if_neg this]
  · have hd : ¬ k ∈ (entries.map fun e => e.1).dedup := fun h => hk (List.mem_dedup.mp h)
    have : valuesOf k entries = [] := (valuesOf_eq_nil_iff k entries).mpr hk
    rw [if_neg hd, if_pos this]
    rfl

theorem valuesOf_length_le_one (k : String) (entries : List (String × String))
    (hnd : (entries.map fun e => e.1).Nodup) : (valuesOf k entries).length ≤ 1 := by
  induction entries with
  | nil => simp [valuesOf]
  | cons e t ih =>
    rw [List.map_cons, List.nodup_cons] at hnd
    by_cases he : e.1 = k
    · have h0 : valuesOf k t = [] := (valuesOf_eq_nil_iff k t).mpr (he ▸ hnd.1)
      have : valuesOf k (e :: t) = e.2 :: valuesOf k t := by simp [valuesOf, he]
      rw [this, h0]; simp
    · have : valuesOf k (e :: t) = valuesOf k t := by simp [valuesOf, he]
      rw [this]; exact ih hnd.2

/-- When no name is repeated, the two wire shapes normalise to the same mapping. -/
theorem castHeaders_forms_agree (entries : List (String × String))
    (hnd : (entries.map fun e => e.1).Nodup) :
    ∃ h1 h2, castHeaders (listForm entries) = .ok h1 ∧
      castHeaders (mappingForm entries) = .ok h2 ∧ ∀ k, h1.get k = h2.get k := by
  obtain ⟨h1, e1, g1⟩ := castHeaders_listForm entries
  obtain ⟨h2, e2, g2⟩ := castHeaders_mappingForm entries
  refine ⟨h1, h2, e1, e2, fun k => ?_⟩
  rw [g1, g2]
  have hl := valuesOf_length_le_one k entries hnd
  cases hv : valuesOf k entries with
  | nil => simp
  | cons a l =>
    rw [hv] at hl
    have : l = [] := by
      cases l with
      | nil => rfl
      | cons b m => simp at hl
    subst this
    simp

/-! ## Results -/

/-- C1. The two wire shapes of one header set do not normalise alike: on the list form
`Set-Cookie: a=1`, `Set-Cookie: b=2` the list loop stores a fresh one-element slice at each
entry, so only the last value is kept under the name, while the mapping form of the same
header set keeps both values in order. -/
theorem castHeaders_list_form_keeps_last_value :
    castHeaders (listForm [("Set-Cookie", "a=1"), ("Set-Cookie", "b=2")])
        = .ok [("Set-Cookie", ["b=2"])] ∧
      castHeaders (mappingForm [("Set-Cookie", "a=1"), ("Set-Cookie", "b=2")])
        = .ok [("Set-Cookie", ["a=1", "b=2"])] :=
  ⟨rfl, rfl⟩

/-- C2. A reply with transport status 504 makes `GetResponse` return the nil result with the
GatewayTimeout error after this one proxy call and without a reset call, whatever the body
and whatever `encoding/json` would make of it. -/
theorem GetResponse_gateway_timeout (w : World) (req : Request) (fuel : Nat) (c : Calls)
    (body : String) (decode : Decode) (h : w.fetch c.fetches = .reply 504 body decode) :
    GetResponse w req (fuel + 1) c
      = some (⟨c.fetches + 1, c.resets⟩, .ok (none, some .GatewayTimeout)) := by
  simp [GetResponse, h]

theorem GetResponse_gateway_timeout_witness :
    timeoutWorld.fetch 0 = timeoutReply ∧
      GetResponse timeoutWorld exampleRequest 1 ⟨0, 0⟩
        = some (⟨1, 0⟩, .ok (none, some .GatewayTimeout)) :=
  ⟨rfl, GetResponse_gateway_timeout timeoutWorld exampleRequest 0 ⟨0, 0⟩ _ _ rfl⟩

/-- C3, as stated, fails: with two transient-empty replies followed by a complete one and every
reset reporting "ok", `GetResponse` makes three proxy calls and two reset calls, and returns
the outcome of the third attempt. -/
theorem GetResponse_retry_chain_counterexample :
    classifiedTransient (chainWorld.fetch 0) = true ∧
      classifiedTransient (chainWorld.fetch 1) = true ∧
      (∀ n, chainWorld.gc n = .status "ok") ∧
      ∃ r, GetResponse chainWorld exampleRequest 3 ⟨0, 0⟩ = some (⟨3, 2⟩, .ok (some r, none)) :=
  ⟨rfl, rfl, fun _ => rfl, _, rfl⟩

/-- C3, amended. After a transient-empty reply and a reset reporting "ok", `GetResponse`
returns what its self-call on the following replies returns. Either the second reply is itself
sent to the retry branch, or the run ends after exactly two proxy calls and one reset call
with the outcome of the second attempt. -/
theorem GetResponse_retry (w : World) (req : Request) (fuel : Nat) (c : Calls)
    (h1 : classifiedTransient (w.fetch c.fetches) = true)
    (h2 : w.gc c.resets = .status "ok") :
    GetResponse w req (fuel + 1) c = GetResponse w req fuel ⟨c.fetches + 1, c.resets + 1⟩ ∧
      (classifiedTransient (w.fetch (c.fetches + 1)) = true ∨
        ∃ r, GetResponse w req 1 ⟨c.fetches + 1, c.resets + 1⟩
              = some (⟨c.fetches + 2, c.resets + 1⟩, r) ∧
            GetResponse w req (fuel + 2) c = some (⟨c.fetches + 2, c.resets + 1⟩, r)) := by
  refine ⟨GetResponse_retry_step w req fuel c h1 h2, ?_⟩
  cases h3 : classifiedTransient (w.fetch (c.fetches + 1)) with
  | true => exact Or.inl rfl
  | false =>
    obtain ⟨r, hr⟩ := GetResponse_single w req ⟨c.fetches + 1, c.resets + 1⟩ h3
    refine Or.inr ⟨r, hr 0, ?_⟩
    rw [GetResponse_retry_step w req (fuel + 1) c h1 h2]
    exact hr fuel

theorem GetResponse_retry_witness :
    classifiedTransient (retryWorld.fetch 0) = true ∧
      retryWorld.gc 0 = .status "ok" ∧
      GetResponse retryWorld exampleRequest 2 ⟨0, 0⟩
        = some (⟨2, 1⟩, .ok (none, some .GatewayTimeout)) :=
  ⟨rfl, rfl, (GetResponse_retry retryWorld exampleRequest 1 ⟨0, 0⟩ rfl rfl).1.trans rfl⟩

/-- C4. A status-200 reply whose body is not well-formed JSON does not end `GetResponse` with
a decode error: the error is only logged, the zero record is taken for a transient-empty
reply, a reset call is made and the proxy is called again. Here the second reply is complete
and `GetResponse` returns it as a success; with a failing reset it returns nil and no error. -/
theorem GetResponse_malformed_body_is_retried :
    (∃ r, GetResponse (malformedWorld (.status "ok")) exampleRequest 2 ⟨0, 0⟩
        = some (⟨2, 1⟩, .ok (some r, none))) ∧
      GetResponse (malformedWorld (.failed "connection refused")) exampleRequest 2 ⟨0, 0⟩
        = some (⟨1, 1⟩, .ok (none, none)) :=
  ⟨⟨_, rfl⟩, rfl⟩

/-- C5. On a freshly decoded record for which the rules collect at least one reason,
`setCacheInfo` returns, leaves `Cacheable` false and sets `Expires` to the clock reading taken
at the assignment; the expiration the rules computed plays no part. -/
theorem setCacheInfo_with_reasons (w : World) (decode : Decode) (r : Response) (b : Bool)
    (rv : ObjectResults)
    (hdec : Response.UnmarshalJSON decode = .ok (r, b))
    (hrv : r.cacheResults w = .ok rv)
    (hreasons : rv.OutReasons ≠ []) :
    ∃ r', r.setCacheInfo w = .ok r' ∧ r'.Cacheable = false ∧ r'.Expires = w.clock 1 := by
  have hlen : ¬ rv.OutReasons.length = 0 := by
    intro h0
    exact hreasons (List.length_eq_zero.mp h0)
  refine ⟨{ r with Expires := w.clock 1 }, ?_, ?_, rfl⟩
  · simp [Response.setCacheInfo, hrv, hlen]
  · exact (UnmarshalJSON_zero_cache_fields decode r b hdec).1

theorem setCacheInfo_with_reasons_witness :
    ∃ r', completeResponse.setCacheInfo completeWorld = .ok r' ∧
      r'.Cacheable = false ∧ r'.Expires = 1001 :=
  setCacheInfo_with_reasons completeWorld (.ok completeFields) completeResponse false ⟨[1], 0⟩
    rfl rfl (by decide)

/-- C6. On a record for which the rules collect no reason, `setCacheInfo` returns, sets
`Cacheable`, and sets `Expires` to the computed expiration when that is not the zero time and
to the clock reading plus 24 hours when it is. -/
theorem setCacheInfo_without_reasons (w : World) (r : Response) (rv : ObjectResults)
    (hrv : r.cacheResults w = .ok rv)
    (hnone : rv.OutReasons = []) :
    ∃ r', r.setCacheInfo w = .ok r' ∧ r'.Cacheable = true ∧
      (rv.OutExpirationTime ≠ 0 → r'.Expires = rv.OutExpirationTime) ∧
      (rv.OutExpirationTime = 0 → r'.Expires = w.clock 1 + 24 * Hour) := by
  by_cases hz : rv.OutExpirationTime = 0
  · refine ⟨{ r with Cacheable := true, Expires := w.clock 1 + Hour * 24 }, ?_, rfl, ?_, ?_⟩
    · simp [Response.setCacheInfo, hrv, hnone, IsZero, hz]
    · intro hne; exact absurd hz hne
    · intro _; exact congrArg (fun x => w.clock 1 + x) (Int.mul_comm Hour 24)
  · refine ⟨{ r with Cacheable := true, Expires := rv.OutExpirationTime }, ?_, rfl, ?_, ?_⟩
    · simp [Response.setCacheInfo, hrv, hnone, IsZero, hz]
    · intro _; rfl
    · intro h0; exact absurd h0 hz

theorem setCacheInfo_without_reasons_witness :
    ∃ r', plainResponse.setCacheInfo completeWorld = .ok r' ∧
      r'.Cacheable = true ∧
      ((0 : Int) ≠ 0 → r'.Expires = 0) ∧
      ((0 : Int) = 0 → r'.Expires = 1001 + 24 * Hour) :=
  setCacheInfo_without_reasons completeWorld plainResponse ⟨[], 0⟩ rfl rfl

/-- C7. When the first reply is transient-empty and the reset does not report "ok" (a failed
call, or another status token), `GetResponse` makes no second proxy call and returns nil with
no error; `Fetch` then calls `GetContent` on the nil result and panics on `r.Error` instead
of returning. -/
theorem Fetch_panics_after_failed_reset :
    GetResponse (emptyWorld (.failed "connection refused")) exampleRequest 2 ⟨0, 0⟩
        = some (⟨1, 1⟩, .ok (none, none)) ∧
      Fetch (emptyWorld (.failed "connection refused")) exampleRequest 2 ⟨0, 0⟩
        = some (⟨1, 1⟩, .error .nilDereference) ∧
      Fetch (emptyWorld (.status "busy")) exampleRequest 2 ⟨0, 0⟩
        = some (⟨1, 1⟩, .error .nilDereference) :=
  ⟨rfl, rfl, rfl⟩

/-- C8. A status-200 reply with a well-formed body, no error code, a `response` member with
`ok` true, no `request` member and no `html` is not sent to the retry branch, and
`GetResponse` panics in `setCacheInfo` on `r.Request.Headers` instead of returning a
result. -/
theorem GetResponse_panics_without_request :
    classifiedTransient (noRequestWorld.fetch 0) = false ∧
      GetResponse noRequestWorld exampleRequest 1 ⟨0, 0⟩
        = some (⟨1, 0⟩, .error .nilDereference) :=
  ⟨rfl, rfl⟩

/-- C9. `castHeaders` panics on a list with an entry that is not an object, on a list entry
with a string `value` and no string `name`, and on a mapping with a value that is not a list
of strings. -/
theorem castHeaders_panics :
    castHeaders (.arr [.str "Accept: text/html"]) = .error .typeAssertion ∧
    castHeaders (.arr [.obj [("value", .str "text/html")]]) = .error .typeAssertion ∧
    castHeaders (.obj [("Accept", .str "text/html")]) = .error .typeAssertion ∧
    castHeaders (.obj [("Accept", .arr [.num 1])]) = .error .typeAssertion :=
  ⟨rfl, rfl, rfl, rfl⟩

/-- C10. `GetURL` trims the slashes before the white space: on a URL ending in a slash
followed by a blank the result still ends in a slash, and `GetURL` applied to that result
removes it. -/
theorem GetURL_keeps_slash_before_blank :
    Request.GetURL { exampleRequest with URL := "https://example.com/ " }
      = "https://example.com/" ∧
    Request.GetURL { exampleRequest with URL := "https://example.com/" }
      = "https://example.com" :=
  ⟨rfl, rfl⟩

end Splash
